import Mathlib

/-!
Verification of the monie-utils monetary arithmetic, rounding, allocation and
loan/credit routines.  JavaScript numbers are modelled as exact rationals
(`ℚ`); `Math.round` is round-half-toward-positive-infinity, `Math.floor` and
`Math.ceil` are the integer floor/ceiling, and `Math.log` is the real
logarithm.  Each definition below mirrors the corresponding exported function
of the library, after its input-validation guards (the guards only reject
non-finite numbers or out-of-domain values, which the theorems carry as
hypotheses); `calculatePayoffTime`, whose error path is itself under
verification, is modelled with an explicit `Except`.
-/

/-- JavaScript `Math.round`: round half toward positive infinity. -/
def jsRound (x : ℚ) : ℤ := ⌊x + 1/2⌋

/-- JavaScript `Number.EPSILON` (2⁻⁵²). -/
def jsEpsilon : ℚ := 1 / 2 ^ 52

/-- The rounding modes accepted by `roundMoney`. -/
inductive RoundingMode
  | round
  | floor
  | ceil
  | bankers
  deriving DecidableEq

/-- `roundMoney(amount, precision, mode)` from `src/arithmetic/arithmetic.ts`. -/
def roundMoney (amount : ℚ) (precision : ℕ) (mode : RoundingMode) : ℚ :=
  let multiplier : ℚ := 10 ^ precision
  match mode with
  | .floor => (⌊amount * multiplier⌋ : ℚ) / multiplier
  | .ceil => (⌈amount * multiplier⌉ : ℚ) / multiplier
  | .bankers =>
    let scaled := amount * multiplier
    let rounded := jsRound scaled
    if |scaled - (⌊scaled⌋ : ℚ) - 1/2| < jsEpsilon then
      ((if rounded % 2 = 0 then rounded else rounded - Int.sign rounded : ℤ) : ℚ) / multiplier
    else
      (rounded : ℚ) / multiplier
  | .round => (jsRound (amount * multiplier) : ℚ) / multiplier

/-- The tie-breaking modes of `roundToBankersRounding`. -/
inductive BankersRoundingMode
  | halfEven
  | halfOdd
  deriving DecidableEq

/-- `roundToBankersRounding(amount, decimalPlaces, mode)` from `src/utils`. -/
def roundToBankersRounding (amount : ℚ) (decimalPlaces : ℕ)
    (mode : BankersRoundingMode) : ℚ :=
  let multiplier : ℚ := 10 ^ decimalPlaces
  let shifted := amount * multiplier
  let rounded : ℚ := (jsRound (shifted * 10) : ℚ) / 10
  let fl : ℤ := ⌊rounded⌋
  let remainder := rounded - (fl : ℚ)
  if |remainder - 1/2| < 1 / 10 ^ 10 then
    match mode with
    | .halfEven => if fl % 2 = 0 then (fl : ℚ) / multiplier else ((fl + 1 : ℤ) : ℚ) / multiplier
    | .halfOdd => if fl % 2 = 0 then ((fl + 1 : ℤ) : ℚ) / multiplier else (fl : ℚ) / multiplier
  else
    ((jsRound shifted : ℤ) : ℚ) / multiplier

/-- A rational that is a whole number of cents (two decimal places). -/
def IsCent (q : ℚ) : Prop := ∃ z : ℤ, q = (z : ℚ) / 100

/-- Result record of `splitAmount`. -/
structure SplitResult where
  amounts : List ℚ
  totalAmount : ℚ
  numberOfParts : ℕ
  remainder : ℚ

/-- The cent-distribution loop of `splitAmount`: walk the parts from the last
one toward the first, adding one cent to each while cents remain; returns the
updated parts and the cents left over. -/
def addCentsFromEnd : List ℚ → ℤ → List ℚ × ℤ
  | [], rc => ([], rc)
  | x :: rest, rc =>
    let p := addCentsFromEnd rest rc
    if 0 < p.2 then (roundMoney (x + 1/100) 2 .round :: p.1, p.2 - 1)
    else (x :: p.1, p.2)

/-- `splitAmount(totalAmount, numberOfParts)` from `src/arithmetic/arithmetic.ts`. -/
def splitAmount (totalAmount : ℚ) (numberOfParts : ℕ) : SplitResult :=
  let baseAmount : ℚ := (⌊totalAmount * 100 / (numberOfParts : ℚ)⌋ : ℚ) / 100
  let remainder := roundMoney (totalAmount - baseAmount * numberOfParts) 2 .round
  let amounts := List.replicate numberOfParts baseAmount
  let remainderCents : ℤ := jsRound (remainder * 100)
  let p := addCentsFromEnd amounts remainderCents
  { amounts := p.1, totalAmount := totalAmount, numberOfParts := numberOfParts,
    remainder := (p.2 : ℚ) / 100 }

/-- Result record of `distributeProportionally`. -/
structure DistributionResult where
  amounts : List ℚ
  totalAmount : ℚ
  ratios : List ℚ
  remainder : ℚ

/-- `distributeProportionally(totalAmount, ratios)` from `src/arithmetic/arithmetic.ts`. -/
def distributeProportionally (totalAmount : ℚ) (ratios : List ℚ) : DistributionResult :=
  let totalRatio := ratios.foldl (· + ·) 0
  let amounts := ratios.map fun r => roundMoney (totalAmount * r / totalRatio) 2 .round
  let distributedTotal := amounts.foldl (· + ·) 0
  let remainder := roundMoney (totalAmount - distributedTotal) 2 .round
  { amounts := amounts, totalAmount := totalAmount, ratios := ratios,
    remainder := remainder }

/-- Result record of `calculateMonthlyPayment`. -/
structure LoanPaymentResult where
  monthlyPayment : ℚ
  principal : ℚ
  rate : ℚ
  termMonths : ℕ
  totalAmount : ℚ
  totalInterest : ℚ

/-- `calculateMonthlyPayment(principal, rate, termMonths)` from `src/loans`. -/
def calculateMonthlyPayment (principal rate : ℚ) (termMonths : ℕ) : LoanPaymentResult :=
  if rate = 0 then
    let monthlyPayment := roundMoney (principal / (termMonths : ℚ)) 2 .round
    { monthlyPayment := monthlyPayment, principal := principal, rate := rate,
      termMonths := termMonths,
      totalAmount := roundMoney (monthlyPayment * (termMonths : ℚ)) 2 .round,
      totalInterest := 0 }
  else
    let monthlyRate := rate / 100 / 12
    let monthlyPayment :=
      principal * (monthlyRate * (1 + monthlyRate) ^ termMonths) /
        ((1 + monthlyRate) ^ termMonths - 1)
    let roundedPayment := roundMoney monthlyPayment 2 .round
    let totalAmount := roundMoney (roundedPayment * (termMonths : ℚ)) 2 .round
    { monthlyPayment := roundedPayment, principal := principal, rate := rate,
      termMonths := termMonths, totalAmount := totalAmount,
      totalInterest := roundMoney (totalAmount - principal) 2 .round }

/-- One row of the amortization schedule. -/
structure AmortizationPayment where
  paymentNumber : ℕ
  paymentAmount : ℚ
  principalAmount : ℚ
  interestAmount : ℚ
  remainingBalance : ℚ

/-- The schedule loop of `generateAmortizationSchedule`, written with the
number of remaining periods as fuel: the call with fuel `k + 1` performs the
iteration numbered `i`, and the iteration run with fuel `1` is the final
period (`i === termMonths` in the source). -/
def amortAux (monthlyPayment rate monthlyRate : ℚ) : ℕ → ℕ → ℚ → List AmortizationPayment
  | _, 0, _ => []
  | i, k + 1, bal =>
    let interestAmount := if rate = 0 then 0 else roundMoney (bal * monthlyRate) 2 .round
    let principalAmount := roundMoney (monthlyPayment - interestAmount) 2 .round
    let actualPrincipalAmount := if k = 0 then bal else principalAmount
    let actualPaymentAmount := roundMoney (actualPrincipalAmount + interestAmount) 2 .round
    let newBal := roundMoney (max 0 (bal - actualPrincipalAmount)) 2 .round
    { paymentNumber := i, paymentAmount := actualPaymentAmount,
      principalAmount := actualPrincipalAmount, interestAmount := interestAmount,
      remainingBalance := newBal } ::
      amortAux monthlyPayment rate monthlyRate (i + 1) k newBal

/-- Result record of `generateAmortizationSchedule`. -/
structure AmortizationSchedule where
  payments : List AmortizationPayment
  summary : LoanPaymentResult

/-- `generateAmortizationSchedule(principal, rate, termMonths)` from `src/loans`. -/
def generateAmortizationSchedule (principal rate : ℚ) (termMonths : ℕ) : AmortizationSchedule :=
  let summary := calculateMonthlyPayment principal rate termMonths
  { payments := amortAux summary.monthlyPayment rate (rate / 100 / 12) 1 termMonths principal,
    summary := summary }

/-- Result record of `calculateMinimumPayment`. -/
structure MinimumPaymentResult where
  minimumPayment : ℚ
  balance : ℚ
  interestRate : ℚ
  minimumRate : ℚ
  interestPortion : ℚ
  principalPortion : ℚ

/-- `calculateMinimumPayment(balance, rate, minimumRate)` from `src/loans`. -/
def calculateMinimumPayment (balance rate minimumRate : ℚ) : MinimumPaymentResult :=
  let monthlyInterestRate := rate / 100 / 12
  let interestPortion := roundMoney (balance * monthlyInterestRate) 2 .round
  let minimumBasedOnRate := roundMoney (balance * minimumRate / 100) 2 .round
  let minimumPayment := max minimumBasedOnRate (interestPortion + 15)
  { minimumPayment := roundMoney minimumPayment 2 .round, balance := balance,
    interestRate := rate, minimumRate := minimumRate,
    interestPortion := interestPortion,
    principalPortion := roundMoney (minimumPayment - interestPortion) 2 .round }

/-- Result record of `calculatePayoffTime`. -/
structure PayoffTimeResult where
  monthsToPayoff : ℤ
  yearsToPayoff : ℚ
  totalInterestPaid : ℚ
  totalAmountPaid : ℚ
  monthlyPayment : ℚ

/-- `calculatePayoffTime(balance, payment, rate)` from `src/loans`, including
its validation guards; the general-rate period count uses the real logarithm
(the idealization of `Math.log`). -/
noncomputable def calculatePayoffTime (balance payment rate : ℚ) :
    Except String PayoffTimeResult :=
  if balance ≤ 0 then Except.error "Invalid balance"
  else if payment ≤ 0 then Except.error "Invalid payment"
  else if rate < 0 then Except.error "Invalid rate"
  else
    let monthlyRate := rate / 100 / 12
    let monthlyInterest := balance * monthlyRate
    if payment ≤ monthlyInterest then
      Except.error "Payment must be greater than monthly interest"
    else if rate = 0 then
      let monthsToPayoff : ℤ := ⌈balance / payment⌉
      Except.ok
      { monthsToPayoff := monthsToPayoff,
        yearsToPayoff := roundMoney ((monthsToPayoff : ℚ) / 12) 2 .round,
        totalInterestPaid := 0,
        totalAmountPaid := roundMoney (payment * (monthsToPayoff : ℚ)) 2 .round,
        monthlyPayment := payment }
    else
      let monthsToPayoff : ℤ :=
        ⌈-Real.log (1 - ((balance * monthlyRate / payment : ℚ) : ℝ)) /
          Real.log ((1 + monthlyRate : ℚ) : ℝ)⌉
      let totalAmountPaid := roundMoney (payment * (monthsToPayoff : ℚ)) 2 .round
      Except.ok
      { monthsToPayoff := monthsToPayoff,
        yearsToPayoff := roundMoney ((monthsToPayoff : ℚ) / 12) 2 .round,
        totalInterestPaid := roundMoney (totalAmountPaid - balance) 2 .round,
        totalAmountPaid := totalAmountPaid,
        monthlyPayment := payment }

/-- Whether an `Except` value is an error (a thrown `MonieUtilsError`). -/
def throwsError {α : Type} : Except String α → Bool
  | Except.error _ => true
  | Except.ok _ => false

set_option maxRecDepth 100000

attribute [local semireducible] Rat.add Rat.mul Rat.sub Rat.inv Rat.ofScientific

/-! ### Basic facts about the JS rounding primitives -/

lemma roundMoney_round_def (x : ℚ) (p : ℕ) :
    roundMoney x p .round = (jsRound (x * 10 ^ p) : ℚ) / 10 ^ p := rfl

lemma jsRound_intCast (z : ℤ) : jsRound (z : ℚ) = z := by
  unfold jsRound
  rw [add_comm, Int.floor_add_int, Int.floor_eq_zero_iff.mpr (by constructor <;> norm_num)]
  ring

lemma jsRound_mono {x y : ℚ} (h : x ≤ y) : jsRound x ≤ jsRound y :=
  Int.floor_mono (by linarith)

lemma jsRound_nonneg {x : ℚ} (h : 0 ≤ x) : 0 ≤ jsRound x :=
  Int.le_floor.mpr (by push_cast; linarith)

lemma roundMoney_round_mono (p : ℕ) {x y : ℚ} (h : x ≤ y) :
    roundMoney x p .round ≤ roundMoney y p .round := by
  rw [roundMoney_round_def, roundMoney_round_def,
    div_le_div_iff_of_pos_right (by positivity : (0:ℚ) < 10 ^ p)]
  exact_mod_cast jsRound_mono (mul_le_mul_of_nonneg_right h (by positivity))

lemma roundMoney_round_nonneg (p : ℕ) {x : ℚ} (h : 0 ≤ x) :
    0 ≤ roundMoney x p .round := by
  rw [roundMoney_round_def]
  have : (0:ℤ) ≤ jsRound (x * 10 ^ p) := jsRound_nonneg (by positivity)
  positivity

/-! ### Cent-granularity values -/

lemma isCent_zero : IsCent 0 := ⟨0, by norm_num⟩

lemma IsCent.add {a b : ℚ} (ha : IsCent a) (hb : IsCent b) : IsCent (a + b) := by
  obtain ⟨x, rfl⟩ := ha
  obtain ⟨y, rfl⟩ := hb
  exact ⟨x + y, by push_cast; ring⟩

lemma IsCent.sub {a b : ℚ} (ha : IsCent a) (hb : IsCent b) : IsCent (a - b) := by
  obtain ⟨x, rfl⟩ := ha
  obtain ⟨y, rfl⟩ := hb
  exact ⟨x - y, by push_cast; ring⟩

lemma IsCent.max {a b : ℚ} (ha : IsCent a) (hb : IsCent b) : IsCent (max a b) := by
  rcases le_total a b with h | h
  · rwa [max_eq_right h]
  · rwa [max_eq_left h]

lemma isCent_roundMoney_round (x : ℚ) : IsCent (roundMoney x 2 .round) :=
  ⟨jsRound (x * 10 ^ 2), by rw [roundMoney_round_def]; norm_num⟩

lemma IsCent.roundMoney_eq {q : ℚ} (h : IsCent q) : roundMoney q 2 .round = q := by
  obtain ⟨z, rfl⟩ := h
  rw [roundMoney_round_def]
  have h1 : (z : ℚ) / 100 * 10 ^ 2 = (z : ℚ) := by
    norm_num
  rw [h1, jsRound_intCast]
  norm_num

lemma roundMoney_floor_def (x : ℚ) (p : ℕ) :
    roundMoney x p .floor = (⌊x * 10 ^ p⌋ : ℚ) / 10 ^ p := rfl

lemma roundMoney_ceil_def (x : ℚ) (p : ℕ) :
    roundMoney x p .ceil = (⌈x * 10 ^ p⌉ : ℚ) / 10 ^ p := rfl

lemma roundMoney_bankers_def (x : ℚ) (p : ℕ) :
    roundMoney x p .bankers =
      if |x * 10 ^ p - (⌊x * 10 ^ p⌋ : ℚ) - 1/2| < jsEpsilon then
        ((if jsRound (x * 10 ^ p) % 2 = 0 then jsRound (x * 10 ^ p)
          else jsRound (x * 10 ^ p) - Int.sign (jsRound (x * 10 ^ p)) : ℤ) : ℚ) / 10 ^ p
      else (jsRound (x * 10 ^ p) : ℚ) / 10 ^ p := rfl

lemma roundMoney_eq_intCast_div (x : ℚ) (p : ℕ) (mode : RoundingMode) :
    ∃ z : ℤ, roundMoney x p mode = (z : ℚ) / 10 ^ p := by
  cases mode with
  | floor => exact ⟨⌊x * 10 ^ p⌋, rfl⟩
  | ceil => exact ⟨⌈x * 10 ^ p⌉, rfl⟩
  | round => exact ⟨jsRound (x * 10 ^ p), rfl⟩
  | bankers =>
    by_cases h : |x * 10 ^ p - (⌊x * 10 ^ p⌋ : ℚ) - 1/2| < jsEpsilon
    · exact ⟨if jsRound (x * 10 ^ p) % 2 = 0 then jsRound (x * 10 ^ p)
        else jsRound (x * 10 ^ p) - Int.sign (jsRound (x * 10 ^ p)),
        by rw [roundMoney_bankers_def, if_pos h]⟩
    · exact ⟨jsRound (x * 10 ^ p), by rw [roundMoney_bankers_def, if_neg h]⟩

/-- C8: for every amount, every precision and every supported rounding mode,
`roundMoney` is idempotent: rounding an already-rounded value leaves it
unchanged. -/
theorem roundMoney_idempotent (x : ℚ) (p : ℕ) (mode : RoundingMode) :
    roundMoney (roundMoney x p mode) p mode = roundMoney x p mode := by
  obtain ⟨z, hz⟩ := roundMoney_eq_intCast_div x p mode
  rw [hz]
  have hpow : (0:ℚ) < 10 ^ p := by positivity
  have hcancel : (z : ℚ) / 10 ^ p * 10 ^ p = (z : ℚ) := div_mul_cancel₀ _ (ne_of_gt hpow)
  cases mode with
  | floor => rw [roundMoney_floor_def, hcancel, Int.floor_intCast]
  | ceil => rw [roundMoney_ceil_def, hcancel, Int.ceil_intCast]
  | round => rw [roundMoney_round_def, hcancel, jsRound_intCast]
  | bankers =>
    rw [roundMoney_bankers_def, hcancel, Int.floor_intCast, jsRound_intCast, if_neg]
    rw [sub_self, zero_sub, abs_neg, abs_of_nonneg (by norm_num : (0:ℚ) ≤ 1/2)]
    rw [jsEpsilon]
    norm_num

/-- C7: `roundToBankersRounding` rounds exact half-cent ties to the even
cent: 2.125 rounds down to 2.12 and 2.135 rounds up to 2.14. -/
theorem roundToBankersRounding_half_even_examples :
    roundToBankersRounding (17/8) 2 .halfEven = 53/25 ∧
      roundToBankersRounding (427/200) 2 .halfEven = 107/50 := by
  decide

/-- C9 counterexample: contrary to the claim, in exact arithmetic
`roundMoney(2.135, 2, bankers)` returns 2.14 (not 2.13), agreeing with
`roundToBankersRounding(2.135, 2, half-even)` at that input. -/
theorem roundMoney_bankers_at_2135_cex :
    roundMoney (427/200) 2 .bankers = 107/50 ∧
      roundMoney (427/200) 2 .bankers = roundToBankersRounding (427/200) 2 .halfEven := by
  decide

/-- C9 (amended): the two banker's-rounding implementations are still not
extensionally equal: at amount 2.1346 with precision 2, `roundMoney` returns
2.13 while `roundToBankersRounding` returns 2.14, because the latter first
rounds the scaled value to one decimal before its tie test. -/
theorem bankers_implementations_differ :
    roundMoney (10673/5000) 2 .bankers = 213/100 ∧
      roundToBankersRounding (10673/5000) 2 .halfEven = 107/50 ∧
      roundMoney (10673/5000) 2 .bankers ≠ roundToBankersRounding (10673/5000) 2 .halfEven := by
  decide

/-! ### Minimum payment (C10) and monthly payment (C2) -/

lemma isCent_fifteen : IsCent 15 := ⟨1500, by norm_num⟩

/-- C10: over the whole validated input domain the returned `minimumPayment`
is bounded below by the fixed $15 floor, and a zero balance returns
exactly $15. -/
theorem calculateMinimumPayment_floor (balance rate minimumRate : ℚ)
    (hb : 0 ≤ balance) (hr : 0 ≤ rate) (hm : 0 < minimumRate) (hm2 : minimumRate ≤ 100) :
    15 ≤ (calculateMinimumPayment balance rate minimumRate).minimumPayment ∧
      (balance = 0 → (calculateMinimumPayment balance rate minimumRate).minimumPayment = 15) := by
  have hdef : (calculateMinimumPayment balance rate minimumRate).minimumPayment =
      roundMoney (max (roundMoney (balance * minimumRate / 100) 2 .round)
        (roundMoney (balance * (rate / 100 / 12)) 2 .round + 15)) 2 .round := rfl
  constructor
  · rw [hdef]
    have hip : 0 ≤ roundMoney (balance * (rate / 100 / 12)) 2 .round :=
      roundMoney_round_nonneg 2 (by positivity)
    have h15 : (15:ℚ) ≤ max (roundMoney (balance * minimumRate / 100) 2 .round)
        (roundMoney (balance * (rate / 100 / 12)) 2 .round + 15) :=
      le_trans (by linarith) (le_max_right _ _)
    calc (15:ℚ) = roundMoney 15 2 .round := (isCent_fifteen.roundMoney_eq).symm
      _ ≤ _ := roundMoney_round_mono 2 h15
  · intro h0
    subst h0
    rw [hdef, zero_mul, zero_div, zero_mul, isCent_zero.roundMoney_eq, zero_add,
      max_eq_right (by norm_num : (0:ℚ) ≤ 15), isCent_fifteen.roundMoney_eq]

/-- Witness for C10 at balance 0, rate 18, minimumRate 2. -/
theorem calculateMinimumPayment_floor_witness :
    (calculateMinimumPayment 0 18 2).minimumPayment = 15 :=
  (calculateMinimumPayment_floor 0 18 2 le_rfl (by norm_num) (by norm_num)
    (by norm_num)).2 rfl

/-- C2 (amended): `totalAmount` is the cent-rounded product of the rounded
monthly payment and the term; when the rate is zero the monthly payment is
the cent-rounded `principal / termMonths` and `totalInterest` is 0; when the
rate is nonzero `totalInterest` is the cent-rounded
`totalAmount - principal`. -/
theorem calculateMonthlyPayment_invariants (principal rate : ℚ) (termMonths : ℕ)
    (hp : 0 < principal) (hr : 0 ≤ rate) (ht : 1 ≤ termMonths) :
    (calculateMonthlyPayment principal rate termMonths).totalAmount =
      roundMoney ((calculateMonthlyPayment principal rate termMonths).monthlyPayment
        * (termMonths : ℚ)) 2 .round ∧
    (rate = 0 →
      (calculateMonthlyPayment principal rate termMonths).monthlyPayment =
        roundMoney (principal / (termMonths : ℚ)) 2 .round ∧
      (calculateMonthlyPayment principal rate termMonths).totalInterest = 0) ∧
    (rate ≠ 0 →
      (calculateMonthlyPayment principal rate termMonths).totalInterest =
        roundMoney ((calculateMonthlyPayment principal rate termMonths).totalAmount
          - principal) 2 .round) := by
  by_cases h : rate = 0
  · exact ⟨by simp only [calculateMonthlyPayment, if_pos h],
      fun _ => ⟨by simp only [calculateMonthlyPayment, if_pos h],
        by simp only [calculateMonthlyPayment, if_pos h]⟩,
      fun hne => absurd h hne⟩
  · exact ⟨by simp only [calculateMonthlyPayment, if_neg h],
      fun h0 => absurd h0 h,
      fun _ => by simp only [calculateMonthlyPayment, if_neg h]⟩

/-- Witness for C2 at the spec's example (12000, 0, 12): the zero-rate
degenerate case returns a monthly payment of 1000 and zero total interest,
and satisfies the totalAmount invariant. -/
theorem calculateMonthlyPayment_invariants_witness :
    (calculateMonthlyPayment 12000 0 12).monthlyPayment = 1000 ∧
      (calculateMonthlyPayment 12000 0 12).totalInterest = 0 ∧
      (calculateMonthlyPayment 12000 0 12).totalAmount =
        roundMoney ((calculateMonthlyPayment 12000 0 12).monthlyPayment * (12:ℕ)) 2 .round := by
  have h := calculateMonthlyPayment_invariants 12000 0 12 (by norm_num) le_rfl (by norm_num)
  refine ⟨?_, (h.2.1 rfl).2, h.1⟩
  rw [(h.2.1 rfl).1]
  decide

/-- C2 counterexample: at `calculateMonthlyPayment(100, 0, 3)` the code
returns `totalInterest = 0` although `totalAmount - principal = -0.01`, and
the zero-rate monthly payment 33.33 is not exactly `principal / term`. -/
theorem calculateMonthlyPayment_claim_cex :
    (calculateMonthlyPayment 100 0 3).totalInterest ≠
        (calculateMonthlyPayment 100 0 3).totalAmount - 100 ∧
      (calculateMonthlyPayment 100 0 3).monthlyPayment ≠ 100 / 3 := by
  decide

/-! ### Payoff time (C6) -/

/-- C6: with validated inputs (positive balance and payment, non-negative
rate), `calculatePayoffTime` throws exactly when the payment does not exceed
the first month's interest `balance * (rate/100/12)`; otherwise it returns
`monthsToPayoff` equal to the ceiling of the closed-form logarithmic annuity
solution, respectively the ceiling of `balance / payment` when the rate is
zero. -/
theorem calculatePayoffTime_spec (balance payment rate : ℚ)
    (hb : 0 < balance) (hp : 0 < payment) (hr : 0 ≤ rate) :
    (throwsError (calculatePayoffTime balance payment rate) = true ↔
      payment ≤ balance * (rate / 100 / 12)) ∧
    ∀ res, calculatePayoffTime balance payment rate = Except.ok res →
      res.monthsToPayoff =
        if rate = 0 then ⌈balance / payment⌉
        else ⌈-Real.log (1 - ((balance * (rate / 100 / 12) / payment : ℚ) : ℝ)) /
          Real.log ((1 + rate / 100 / 12 : ℚ) : ℝ)⌉ := by
  have h1 : ¬ balance ≤ 0 := not_le.mpr hb
  have h2 : ¬ payment ≤ 0 := not_le.mpr hp
  have h3 : ¬ rate < 0 := not_lt.mpr hr
  by_cases hpi : payment ≤ balance * (rate / 100 / 12)
  · constructor
    · simp only [calculatePayoffTime, if_neg h1, if_neg h2, if_neg h3, if_pos hpi, throwsError]
      exact ⟨fun _ => hpi, fun _ => trivial⟩
    · intro res hres
      simp only [calculatePayoffTime, if_neg h1, if_neg h2, if_neg h3, if_pos hpi] at hres
      exact absurd hres (by simp)
  · constructor
    · simp only [calculatePayoffTime, if_neg h1, if_neg h2, if_neg h3, if_neg hpi, throwsError]
      by_cases hz : rate = 0
      · rw [if_pos hz]
        exact iff_of_false (by simp) hpi
      · rw [if_neg hz]
        exact iff_of_false (by simp) hpi
    · intro res hres
      simp only [calculatePayoffTime, if_neg h1, if_neg h2, if_neg h3, if_neg hpi] at hres
      by_cases hz : rate = 0
      · rw [if_pos hz] at hres
        rw [if_pos hz]
        injection hres with h
        rw [← h]
      · rw [if_neg hz] at hres
        rw [if_neg hz]
        injection hres with h
        rw [← h]

/-- Witness for C6 at balance 100, payment 30, rate 0: the call succeeds
and the payment 30 indeed exceeds the zero first-month interest. -/
theorem calculatePayoffTime_spec_witness :
    throwsError (calculatePayoffTime 100 30 0) = false ∧
      ¬ ((30:ℚ) ≤ 100 * (0 / 100 / 12)) := by
  have h := (calculatePayoffTime_spec 100 30 0 (by norm_num) (by norm_num) le_rfl).1
  refine ⟨?_, by norm_num⟩
  cases hb : throwsError (calculatePayoffTime 100 30 0) with
  | false => rfl
  | true => exact absurd (h.mp hb) (by norm_num)

/-! ### Amortization schedule machinery (C1, C3) -/

lemma getLast?_cons_of_getLast?_eq_some {α : Type} (a : α) {l : List α} {e : α}
    (h : l.getLast? = some e) : (a :: l).getLast? = some e := by
  cases l with
  | nil => simp at h
  | cons y ys => rwa [List.getLast?_cons_cons]

lemma amortAux_length (mp rate mr : ℚ) (k : ℕ) : ∀ (i : ℕ) (bal : ℚ),
    (amortAux mp rate mr i k bal).length = k := by
  induction k with
  | zero => intro i bal; rfl
  | succ k ih =>
    intro i bal
    simp only [amortAux, List.length_cons, ih]

lemma amortAux_getLast0 (mp rate mr : ℚ) (k : ℕ) : ∀ (i : ℕ) (bal : ℚ),
    ∃ e, (amortAux mp rate mr i (k + 1) bal).getLast? = some e ∧
      e.remainingBalance = 0 := by
  induction k with
  | zero =>
    intro i bal
    refine ⟨_, List.getLast?_singleton _, ?_⟩
    show roundMoney (max 0 (bal - bal)) 2 .round = 0
    rw [sub_self, max_self, isCent_zero.roundMoney_eq]
  | succ k ih =>
    intro i bal
    simp only [amortAux]
    obtain ⟨e, he, hz⟩ := ih (i + 1) _
    exact ⟨e, getLast?_cons_of_getLast?_eq_some _ he, hz⟩

/-- The per-entry bookkeeping identity the claim's exact-sum property relies
on: every entry's `remainingBalance` is the previous balance minus its own
`principalAmount` (no zero-clamping and no rounding adjustment occurred). -/
def telescopesB : ℚ → List AmortizationPayment → Bool
  | _, [] => true
  | b, e :: rest =>
    decide (e.remainingBalance = b - e.principalAmount) && telescopesB e.remainingBalance rest

/-- The balance after the last entry of a schedule (the starting balance for
an empty schedule). -/
def lastBal : ℚ → List AmortizationPayment → ℚ
  | b, [] => b
  | _, e :: rest => lastBal e.remainingBalance rest

lemma telescopesB_sum : ∀ (L : List AmortizationPayment) (b : ℚ),
    telescopesB b L = true →
    (L.map AmortizationPayment.principalAmount).sum = b - lastBal b L := by
  intro L
  induction L with
  | nil => intro b _; simp [lastBal]
  | cons e rest ih =>
    intro b h
    simp only [telescopesB, Bool.and_eq_true, decide_eq_true_eq] at h
    obtain ⟨h1, h2⟩ := h
    simp only [List.map_cons, List.sum_cons, lastBal]
    rw [ih _ h2, h1]
    ring

lemma lastBal_getLast? : ∀ (L : List AmortizationPayment) (b : ℚ)
    (e : AmortizationPayment), L.getLast? = some e → lastBal b L = e.remainingBalance := by
  intro L
  induction L with
  | nil => intro b e h; simp at h
  | cons x rest ih =>
    intro b e h
    cases rest with
    | nil =>
      rw [List.getLast?_singleton] at h
      injection h with h
      subst h
      rfl
    | cons y ys =>
      rw [List.getLast?_cons_cons] at h
      show lastBal x.remainingBalance (y :: ys) = e.remainingBalance
      exact ih _ _ h

/-- C1 (amended): the schedule always has exactly `termMonths` entries and
its final entry's `remainingBalance` is exactly 0; moreover, whenever no
period's balance was adjusted by zero-clamping or rounding (each entry's
`remainingBalance` equals the prior balance minus its `principalAmount`),
the `principalAmount` entries sum exactly to the original principal. -/
theorem generateAmortizationSchedule_spec (principal rate : ℚ) (termMonths : ℕ)
    (hp : 0 < principal) (hr : 0 ≤ rate) (ht : 1 ≤ termMonths) :
    (generateAmortizationSchedule principal rate termMonths).payments.length = termMonths ∧
    (∃ e, (generateAmortizationSchedule principal rate termMonths).payments.getLast? = some e ∧
      e.remainingBalance = 0) ∧
    (telescopesB principal (generateAmortizationSchedule principal rate termMonths).payments
        = true →
      ((generateAmortizationSchedule principal rate termMonths).payments.map
        AmortizationPayment.principalAmount).sum = principal) := by
  obtain ⟨m, rfl⟩ : ∃ m, termMonths = m + 1 := ⟨termMonths - 1, by omega⟩
  have hpay : (generateAmortizationSchedule principal rate (m + 1)).payments =
      amortAux (calculateMonthlyPayment principal rate (m + 1)).monthlyPayment rate
        (rate / 100 / 12) 1 (m + 1) principal := rfl
  refine ⟨amortAux_length _ _ _ _ _ _, amortAux_getLast0 _ _ _ _ _ _, fun htel => ?_⟩
  obtain ⟨e, he, hz⟩ := amortAux_getLast0
    (calculateMonthlyPayment principal rate (m + 1)).monthlyPayment rate (rate / 100 / 12)
    m 1 principal
  rw [hpay] at htel ⊢
  rw [telescopesB_sum _ _ htel, lastBal_getLast? _ _ _ he, hz, sub_zero]

/-- Witness for C1 at (100, 0, 3): no clamping occurs and the three
principal portions 33.33, 33.33, 33.34 indeed sum to the principal. -/
theorem generateAmortizationSchedule_spec_witness :
    (generateAmortizationSchedule 100 0 3).payments.length = 3 ∧
      ((generateAmortizationSchedule 100 0 3).payments.map
        AmortizationPayment.principalAmount).sum = 100 := by
  have h := generateAmortizationSchedule_spec 100 0 3 (by norm_num) le_rfl (by norm_num)
  exact ⟨h.1, h.2.2 (by decide)⟩

/-- C1 counterexample: at principal 0.02, rate 0, term 4 the rounded
payment of 0.01 exhausts the balance after two periods, the zero-clamp
freezes the balance at 0, and the principal portions sum to 0.03, not to
the original principal 0.02. -/
theorem generateAmortizationSchedule_sum_cex :
    ((generateAmortizationSchedule (1/50) 0 4).payments.map
        AmortizationPayment.principalAmount).sum = 3/100 ∧
      (3/100 : ℚ) ≠ 1/50 := by
  decide

/-! ### Monotonicity of the schedule balance (C3) -/

/-- The claim's invariant: each entry's `remainingBalance` is strictly below
the balance before that payment, starting from `b`. -/
def strictlyDecreasingFrom : ℚ → List AmortizationPayment → Prop
  | _, [] => True
  | b, e :: rest => e.remainingBalance < b ∧ strictlyDecreasingFrom e.remainingBalance rest

instance decStrictlyDecreasingFrom :
    ∀ (b : ℚ) (L : List AmortizationPayment), Decidable (strictlyDecreasingFrom b L)
  | _, [] => .isTrue trivial
  | b, e :: rest =>
    have : Decidable (strictlyDecreasingFrom e.remainingBalance rest) :=
      decStrictlyDecreasingFrom e.remainingBalance rest
    inferInstanceAs (Decidable (_ ∧ _))

/-- The weakening that actually holds: each entry's `remainingBalance` is at
most the balance before that payment. -/
def nonincreasingFrom : ℚ → List AmortizationPayment → Prop
  | _, [] => True
  | b, e :: rest => e.remainingBalance ≤ b ∧ nonincreasingFrom e.remainingBalance rest

lemma monthlyPayment_isCent (principal rate : ℚ) (termMonths : ℕ) :
    IsCent (calculateMonthlyPayment principal rate termMonths).monthlyPayment := by
  by_cases hz : rate = 0
  · simp only [calculateMonthlyPayment, if_pos hz]
    exact isCent_roundMoney_round _
  · simp only [calculateMonthlyPayment, if_neg hz]
    exact isCent_roundMoney_round _

lemma amortAux_nonincreasing (mp rate mr B : ℚ) (hmr : 0 ≤ mr) (hmp : IsCent mp)
    (hint : ∀ b, 0 ≤ b → b ≤ B →
      (if rate = 0 then (0:ℚ) else roundMoney (b * mr) 2 .round) ≤ mp) :
    ∀ (k i : ℕ) (bal : ℚ), IsCent bal → 0 ≤ bal → bal ≤ B →
      nonincreasingFrom bal (amortAux mp rate mr i k bal) := by
  intro k
  induction k with
  | zero => intro i bal _ _ _; exact trivial
  | succ k ih =>
    intro i bal hcent hb0 hbB
    have hIcent : IsCent (if rate = 0 then (0:ℚ) else roundMoney (bal * mr) 2 .round) := by
      split
      · exact isCent_zero
      · exact isCent_roundMoney_round _
    have hI0 : 0 ≤ (if rate = 0 then (0:ℚ) else roundMoney (bal * mr) 2 .round) := by
      split
      · exact le_rfl
      · exact roundMoney_round_nonneg 2 (mul_nonneg hb0 hmr)
    have hIle : (if rate = 0 then (0:ℚ) else roundMoney (bal * mr) 2 .round) ≤ mp :=
      hint bal hb0 hbB
    by_cases hk : k = 0
    · subst hk
      show roundMoney (max 0 (bal - bal)) 2 .round ≤ bal ∧
        nonincreasingFrom (roundMoney (max 0 (bal - bal)) 2 .round) []
      rw [sub_self, max_self, isCent_zero.roundMoney_eq]
      exact ⟨hb0, trivial⟩
    · have hap : roundMoney (mp - (if rate = 0 then (0:ℚ)
          else roundMoney (bal * mr) 2 .round)) 2 .round
          = mp - (if rate = 0 then (0:ℚ) else roundMoney (bal * mr) 2 .round) :=
        (hmp.sub hIcent).roundMoney_eq
      have hnb_cent : IsCent (max 0 (bal - (mp - (if rate = 0 then (0:ℚ)
          else roundMoney (bal * mr) 2 .round)))) :=
        isCent_zero.max (hcent.sub (hmp.sub hIcent))
      have hnb_eq : roundMoney (max 0 (bal - (mp - (if rate = 0 then (0:ℚ)
          else roundMoney (bal * mr) 2 .round)))) 2 .round
          = max 0 (bal - (mp - (if rate = 0 then (0:ℚ)
            else roundMoney (bal * mr) 2 .round))) := hnb_cent.roundMoney_eq
      have hnb_le : max 0 (bal - (mp - (if rate = 0 then (0:ℚ)
          else roundMoney (bal * mr) 2 .round))) ≤ bal :=
        max_le hb0 (by linarith)
      simp only [amortAux, nonincreasingFrom, if_neg hk]
      rw [hap, hnb_eq]
      exact ⟨hnb_le, ih (i + 1) _ hnb_cent (le_max_left _ _) (le_trans hnb_le hbB)⟩

/-- C3 (amended): for a principal that is a whole number of cents (with
rate >= 0 and term >= 1), each entry's `remainingBalance` is at most the
balance before that payment — the balance never increases — and the final
entry's `remainingBalance` is exactly 0.  (Strict decrease fails: a rounded
payment of 0 leaves the balance unchanged, and for sub-cent principals the
balance can even grow.) -/
theorem generateAmortizationSchedule_nonincreasing (principal rate : ℚ) (termMonths : ℕ)
    (hp : 0 < principal) (hr : 0 ≤ rate) (ht : 1 ≤ termMonths) (hc : IsCent principal) :
    nonincreasingFrom principal
        (generateAmortizationSchedule principal rate termMonths).payments ∧
      ∃ e, (generateAmortizationSchedule principal rate termMonths).payments.getLast?
          = some e ∧ e.remainingBalance = 0 := by
  have hpay : (generateAmortizationSchedule principal rate termMonths).payments =
      amortAux (calculateMonthlyPayment principal rate termMonths).monthlyPayment rate
        (rate / 100 / 12) 1 termMonths principal := rfl
  constructor
  · rw [hpay]
    refine amortAux_nonincreasing _ _ _ principal
      (div_nonneg (div_nonneg hr (by norm_num)) (by norm_num))
      (monthlyPayment_isCent _ _ _) ?_ termMonths 1 principal hc hp.le le_rfl
    intro b hb0 hbB
    by_cases hz : rate = 0
    · rw [if_pos hz]
      have hmp_eq : (calculateMonthlyPayment principal rate termMonths).monthlyPayment =
          roundMoney (principal / (termMonths : ℚ)) 2 .round := by
        simp only [calculateMonthlyPayment, if_pos hz]
      rw [hmp_eq]
      exact roundMoney_round_nonneg 2 (div_nonneg hp.le (by positivity))
    · rw [if_neg hz]
      have hrpos : 0 < rate := lt_of_le_of_ne hr (Ne.symm hz)
      have hmrpos : (0:ℚ) < rate / 100 / 12 := by positivity
      have hmp_eq : (calculateMonthlyPayment principal rate termMonths).monthlyPayment =
          roundMoney (principal * ((rate / 100 / 12) * (1 + rate / 100 / 12) ^ termMonths) /
            ((1 + rate / 100 / 12) ^ termMonths - 1)) 2 .round := by
        simp only [calculateMonthlyPayment, if_neg hz]
      rw [hmp_eq]
      apply roundMoney_round_mono
      have hA : 1 < (1 + rate / 100 / 12) ^ termMonths := one_lt_pow₀ (by linarith) (by omega)
      have h1 : b * (rate / 100 / 12) ≤ principal * (rate / 100 / 12) :=
        mul_le_mul_of_nonneg_right hbB hmrpos.le
      have h2 : principal * (rate / 100 / 12) ≤
          principal * ((rate / 100 / 12) * (1 + rate / 100 / 12) ^ termMonths) /
            ((1 + rate / 100 / 12) ^ termMonths - 1) := by
        rw [le_div_iff₀ (by linarith)]
        nlinarith [mul_pos hp hmrpos]
      linarith
  · rw [hpay]
    obtain ⟨m, rfl⟩ : ∃ m, termMonths = m + 1 := ⟨termMonths - 1, by omega⟩
    exact amortAux_getLast0 _ _ _ _ _ _

/-- Witness for C3 at (100, 0, 3). -/
theorem generateAmortizationSchedule_nonincreasing_witness :
    nonincreasingFrom 100 (generateAmortizationSchedule 100 0 3).payments :=
  (generateAmortizationSchedule_nonincreasing 100 0 3 (by norm_num) le_rfl (by norm_num)
    ⟨10000, by norm_num⟩).1

/-- C3 counterexample: at principal 0.006, rate 0, term 2 the payment rounds
to 0 and the first period's balance is then rounded UP to 0.01 > 0.006, so
the remaining balance does not strictly decrease (it increases). -/
theorem generateAmortizationSchedule_strict_cex :
    ¬ strictlyDecreasingFrom (3/500)
        (generateAmortizationSchedule (3/500) 0 2).payments ∧
      ((generateAmortizationSchedule (3/500) 0 2).payments.map
        AmortizationPayment.remainingBalance) = [1/100, 0] := by
  decide

/-! ### Equal split (C4) -/

lemma addCentsFromEnd_length : ∀ (xs : List ℚ) (rc : ℤ),
    (addCentsFromEnd xs rc).1.length = xs.length := by
  intro xs
  induction xs with
  | nil => intro rc; rfl
  | cons x rest ih =>
    intro rc
    simp only [addCentsFromEnd]
    split
    · simp [ih]
    · simp [ih]

lemma addCentsFromEnd_spec : ∀ (xs : List ℚ) (rc : ℤ), 0 ≤ rc → (∀ x ∈ xs, IsCent x) →
    (addCentsFromEnd xs rc).1.sum = xs.sum + ((min rc (xs.length : ℤ) : ℤ) : ℚ) / 100 ∧
      (addCentsFromEnd xs rc).2 = rc - min rc (xs.length : ℤ) := by
  intro xs
  induction xs with
  | nil =>
    intro rc hrc _
    constructor
    · show (0:ℚ) = 0 + ((min rc ((0:ℕ) : ℤ) : ℤ) : ℚ) / 100
      rw [show ((0:ℕ) : ℤ) = 0 from rfl, min_eq_right hrc]
      norm_num
    · show rc = rc - min rc ((0:ℕ) : ℤ)
      rw [show ((0:ℕ) : ℤ) = 0 from rfl, min_eq_right hrc]
      ring
  | cons x rest ih =>
    intro rc hrc hcent
    have hx : IsCent x := hcent x (List.mem_cons_self x rest)
    obtain ⟨hsum, hleft⟩ := ih rc hrc fun y hy => hcent y (List.mem_cons_of_mem x hy)
    simp only [addCentsFromEnd, List.length_cons]
    by_cases hpos : 0 < (addCentsFromEnd rest rc).2
    · rw [if_pos hpos]
      rw [hleft] at hpos
      have hmin0 : min rc ((rest.length : ℕ) : ℤ) = (rest.length : ℤ) := by omega
      have hmin1 : min rc (((rest.length + 1 : ℕ)) : ℤ) = (rest.length : ℤ) + 1 := by
        push_cast
        omega
      constructor
      · rw [List.sum_cons, List.sum_cons, hsum,
          (hx.add ⟨1, by norm_num⟩).roundMoney_eq, hmin0, hmin1]
        push_cast
        ring
      · rw [hleft, hmin0, hmin1]
        ring
    · rw [if_neg hpos]
      rw [hleft] at hpos
      have hmin0 : min rc ((rest.length : ℕ) : ℤ) = rc := by omega
      have hmin1 : min rc (((rest.length + 1 : ℕ)) : ℤ) = rc := by
        push_cast
        omega
      constructor
      · rw [List.sum_cons, List.sum_cons, hsum, hmin0, hmin1]
        ring
      · rw [hleft, hmin0, hmin1]

lemma addCentsFromEnd_mem : ∀ (xs : List ℚ) (rc : ℤ) (y : ℚ),
    y ∈ (addCentsFromEnd xs rc).1 →
      ∃ x ∈ xs, y = x ∨ y = roundMoney (x + 1/100) 2 .round := by
  intro xs
  induction xs with
  | nil =>
    intro rc y h
    simp only [addCentsFromEnd] at h
    exact absurd h (List.not_mem_nil y)
  | cons x rest ih =>
    intro rc y h
    simp only [addCentsFromEnd] at h
    by_cases hpos : 0 < (addCentsFromEnd rest rc).2
    · rw [if_pos hpos] at h
      rcases List.mem_cons.mp h with h1 | h1
      · exact ⟨x, List.mem_cons_self x rest, Or.inr h1⟩
      · obtain ⟨q, hq, hor⟩ := ih rc y h1
        exact ⟨q, List.mem_cons_of_mem x hq, hor⟩
    · rw [if_neg hpos] at h
      rcases List.mem_cons.mp h with h1 | h1
      · exact ⟨x, List.mem_cons_self x rest, Or.inl h1⟩
      · obtain ⟨q, hq, hor⟩ := ih rc y h1
        exact ⟨q, List.mem_cons_of_mem x hq, hor⟩

/-- C4 (amended): for a total that is a whole number of cents and n >= 1,
`splitAmount` returns exactly n amounts whose exact sum is the total, with
no amount exceeding any other by more than one cent. -/
theorem splitAmount_spec (totalAmount : ℚ) (numberOfParts : ℕ)
    (hn : 1 ≤ numberOfParts) (hc : IsCent totalAmount) :
    (splitAmount totalAmount numberOfParts).amounts.length = numberOfParts ∧
    (splitAmount totalAmount numberOfParts).amounts.sum = totalAmount ∧
    ∀ a ∈ (splitAmount totalAmount numberOfParts).amounts,
      ∀ b ∈ (splitAmount totalAmount numberOfParts).amounts, |a - b| ≤ 1/100 := by
  obtain ⟨z, rfl⟩ := hc
  have hn0 : (0:ℚ) < (numberOfParts : ℚ) := by exact_mod_cast Nat.pos_of_ne_zero (by omega)
  have hz100 : (z : ℚ) / 100 * 100 = (z : ℚ) := div_mul_cancel₀ _ (by norm_num)
  have hamounts : (splitAmount ((z : ℚ) / 100) numberOfParts).amounts =
      (addCentsFromEnd
        (List.replicate numberOfParts
          ((⌊(z : ℚ) / 100 * 100 / (numberOfParts : ℚ)⌋ : ℚ) / 100))
        (jsRound (roundMoney ((z : ℚ) / 100 -
            (⌊(z : ℚ) / 100 * 100 / (numberOfParts : ℚ)⌋ : ℚ) / 100 * (numberOfParts : ℚ))
          2 .round * 100))).1 := rfl
  rw [hz100] at hamounts
  set f : ℤ := ⌊(z : ℚ) / (numberOfParts : ℚ)⌋ with hfdef
  have hrem : (z : ℚ) / 100 - (f : ℚ) / 100 * (numberOfParts : ℚ) =
      ((z - f * numberOfParts : ℤ) : ℚ) / 100 := by
    push_cast
    ring
  have hrc : jsRound (roundMoney ((z : ℚ) / 100 - (f : ℚ) / 100 * (numberOfParts : ℚ))
      2 .round * 100) = z - f * numberOfParts := by
    rw [hrem, (show IsCent (((z - f * numberOfParts : ℤ) : ℚ) / 100) from
        ⟨z - f * numberOfParts, rfl⟩).roundMoney_eq,
      div_mul_cancel₀ _ (by norm_num : (100:ℚ) ≠ 0), jsRound_intCast]
  rw [hrc] at hamounts
  have hf_le : (f : ℚ) * (numberOfParts : ℚ) ≤ (z : ℚ) := by
    have h := Int.floor_le ((z : ℚ) / (numberOfParts : ℚ))
    calc (f : ℚ) * (numberOfParts : ℚ)
        ≤ (z : ℚ) / (numberOfParts : ℚ) * (numberOfParts : ℚ) :=
          mul_le_mul_of_nonneg_right h hn0.le
      _ = (z : ℚ) := div_mul_cancel₀ _ (ne_of_gt hn0)
  have hf_lt : (z : ℚ) < ((f : ℚ) + 1) * (numberOfParts : ℚ) := by
    have h := Int.lt_floor_add_one ((z : ℚ) / (numberOfParts : ℚ))
    calc (z : ℚ) = (z : ℚ) / (numberOfParts : ℚ) * (numberOfParts : ℚ) :=
          (div_mul_cancel₀ _ (ne_of_gt hn0)).symm
      _ < ((f : ℚ) + 1) * (numberOfParts : ℚ) :=
          mul_lt_mul_of_pos_right h hn0
  have hrc0 : 0 ≤ z - f * numberOfParts := by
    have : (0:ℚ) ≤ (z : ℚ) - (f : ℚ) * (numberOfParts : ℚ) := by linarith
    exact_mod_cast this
  have hrcn : z - f * numberOfParts ≤ (numberOfParts : ℤ) := by
    have : (z : ℚ) - (f : ℚ) * (numberOfParts : ℚ) ≤ (numberOfParts : ℚ) := by
      nlinarith
    exact_mod_cast this
  have hcentall : ∀ x ∈ List.replicate numberOfParts ((f : ℚ) / 100), IsCent x :=
    fun x hx => (List.eq_of_mem_replicate hx) ▸ ⟨f, rfl⟩
  obtain ⟨hsum, _⟩ := addCentsFromEnd_spec
    (List.replicate numberOfParts ((f : ℚ) / 100)) (z - f * numberOfParts) hrc0 hcentall
  refine ⟨?_, ?_, ?_⟩
  · rw [hamounts, addCentsFromEnd_length, List.length_replicate]
  · rw [hamounts, hsum, List.sum_replicate, List.length_replicate,
      min_eq_left (by exact_mod_cast hrcn), nsmul_eq_mul]
    push_cast
    ring
  · intro a ha b hb
    rw [hamounts] at ha hb
    have hcent1 : IsCent ((f : ℚ) / 100 + 1 / 100) := ⟨f + 1, by push_cast; ring⟩
    obtain ⟨xa, hxa, hora⟩ := addCentsFromEnd_mem _ _ _ ha
    obtain ⟨xb, hxb, horb⟩ := addCentsFromEnd_mem _ _ _ hb
    rw [List.eq_of_mem_replicate hxa] at hora
    rw [List.eq_of_mem_replicate hxb] at horb
    rw [hcent1.roundMoney_eq] at hora horb
    rw [abs_sub_le_iff]
    rcases hora with rfl | rfl <;> rcases horb with rfl | rfl <;>
      constructor <;> linarith

/-- Witness for C4 at the spec's example: splitAmount(100, 3) returns the
three parts 33.33, 33.33, 33.34, of length 3 and exact sum 100. -/
theorem splitAmount_spec_witness :
    (splitAmount 100 3).amounts.length = 3 ∧
      (splitAmount 100 3).amounts.sum = 100 ∧
      (splitAmount 100 3).amounts = [3333/100, 3333/100, 1667/50] := by
  have h := splitAmount_spec 100 3 (by norm_num) ⟨10000, by norm_num⟩
  exact ⟨h.1, h.2.1, by decide⟩

/-- C4 counterexample: for the sub-cent total 0.005 with one part, the
single returned amount is 0.01, whose sum does not equal the total. -/
theorem splitAmount_sum_cex :
    (splitAmount (1/200) 1).amounts = [1/100] ∧
      (splitAmount (1/200) 1).amounts.sum ≠ 1/200 := by
  decide

/-! ### Proportional distribution (C5) -/

lemma foldl_add_eq (l : List ℚ) : ∀ a : ℚ, l.foldl (· + ·) a = a + l.sum := by
  induction l with
  | nil => intro a; simp
  | cons x rest ih =>
    intro a
    simp only [List.foldl_cons, List.sum_cons, ih]
    ring

lemma isCent_sum (l : List ℚ) (h : ∀ x ∈ l, IsCent x) : IsCent l.sum := by
  induction l with
  | nil => simpa using isCent_zero
  | cons x rest ih =>
    rw [List.sum_cons]
    exact (h x (List.mem_cons_self x rest)).add
      (ih fun y hy => h y (List.mem_cons_of_mem x hy))

/-- C5 (amended): for a total that is a whole number of cents and a
non-empty list of non-negative ratios with positive sum, the distributed
amounts and the reported remainder reconstruct the total exactly:
sum(amounts) + remainder = totalAmount. -/
theorem distributeProportionally_exact (totalAmount : ℚ) (ratios : List ℚ)
    (hne : ratios ≠ []) (hnn : ∀ r ∈ ratios, 0 ≤ r)
    (hpos : 0 < ratios.foldl (· + ·) 0) (hc : IsCent totalAmount) :
    (distributeProportionally totalAmount ratios).amounts.sum +
      (distributeProportionally totalAmount ratios).remainder = totalAmount := by
  have hamounts : (distributeProportionally totalAmount ratios).amounts =
      ratios.map fun r =>
        roundMoney (totalAmount * r / ratios.foldl (· + ·) 0) 2 .round := rfl
  have hrem : (distributeProportionally totalAmount ratios).remainder =
      roundMoney (totalAmount - (ratios.map fun r =>
        roundMoney (totalAmount * r / ratios.foldl (· + ·) 0) 2 .round).foldl
          (· + ·) 0) 2 .round := rfl
  have hcs : IsCent ((ratios.map fun r =>
      roundMoney (totalAmount * r / ratios.foldl (· + ·) 0) 2 .round).sum) := by
    refine isCent_sum _ ?_
    intro x hx
    obtain ⟨r, _, rfl⟩ := List.mem_map.mp hx
    exact isCent_roundMoney_round _
  rw [hamounts, hrem,
    foldl_add_eq (ratios.map fun r =>
      roundMoney (totalAmount * r / ratios.foldl (· + ·) 0) 2 .round) 0,
    zero_add, (hc.sub hcs).roundMoney_eq]
  ring

/-- Witness for C5 at the spec's example: distributeProportionally(100,
[1,2,1]) returns exactly [25, 50, 25] and reconstructs the total. -/
theorem distributeProportionally_exact_witness :
    (distributeProportionally 100 [1, 2, 1]).amounts = [25, 50, 25] ∧
      (distributeProportionally 100 [1, 2, 1]).amounts.sum +
        (distributeProportionally 100 [1, 2, 1]).remainder = 100 :=
  ⟨by decide, distributeProportionally_exact 100 [1, 2, 1] (by decide)
    (by decide) (by decide) ⟨10000, by norm_num⟩⟩

/-- C5 counterexample: for the sub-cent total 0.005 with ratios [1] the
single amount rounds to 0.01 and the remainder rounds to 0, so
sum(amounts) + remainder = 0.01 differs from the total 0.005. -/
theorem distributeProportionally_sum_cex :
    (distributeProportionally (1/200) [1]).amounts.sum +
        (distributeProportionally (1/200) [1]).remainder ≠ 1/200 := by
  decide
